import Mathlib

/-!
Shallow embedding of the plugin/registration core of the rust-av repository:
- `src/format/src/demuxer/demux.rs`: demuxer builders and the content `probe`
  algorithm;
- `src/codec/src/encoder.rs`: the `Encoder` capability, the `Context`
  coordinator, the `Codecs` registry, and the reference "dummy" test encoder.

Modelling conventions:
- Rust `u8` scores are modelled as `Nat`; the probe algorithm only compares
  scores (no arithmetic), so no overflow can occur and the ordering on `Nat`
  agrees with the ordering on `u8` for all values a builder can return.
  The `state as u8` casts in the dummy encoder are modelled as `% 256`.
- A byte sample (`&[u8]`) is a `List Nat`.
- `&mut self` methods are state-passing: they take the receiver and return the
  updated receiver alongside the result; `Result<T>` is `Except ErrorKind T`.
- A diverging Rust path (the `unimplemented!()` macro, or an out-of-bounds
  `descs[0]` index) is modelled with an outer `Option`: `none` is the
  diverging (panicking) outcome, `some x` the value actually returned.
- Trait objects (`Box<Encoder>`, `&'static Descriptor`) are modelled by
  making the registry and the context generic over the concrete encoder
  state type `S` together with an explicit method table `Encoder S`.
-/

set_option autoImplicit false

namespace RustAV

/-- Byte sample handed to the probe algorithm (Rust `&[u8]`). -/
abbrev Sample := List Nat

/-- `DemuxerDescription` from `demux.rs` (static metadata record). -/
structure DemuxerDescription where
  name : String
  description : String
  extensions : List String
  mime : List String

/-- Probe threshold values (the `Score` enum in `demux.rs`). -/
inductive Score where
  | EXTENSION
  | MIME
  | MAX

/-- Numeric value of a `Score` (the discriminant used by `Score as u8`). -/
def Score.toNat : Score → Nat
  | .EXTENSION => 50
  | .MIME => 75
  | .MAX => 100

/-- The `DemuxerBuilder` trait from `demux.rs`, restricted to the members the
probe algorithm touches: the static description and the pure scoring function
`probe(&self, data: &[u8]) -> u8`.  (`alloc` only builds a `Demuxer`, which the
probe algorithm never calls.) -/
structure DemuxerBuilder where
  describe : DemuxerDescription
  probe : Sample → Nat

/-- The `for builder in demuxers` loop of `probe` in `demux.rs`:
`max` starts at `u8::min_value()` (= 0), `candidate` at `None`, and each
builder whose score is strictly greater than the running `max` replaces the
candidate. -/
def probeLoop (demuxers : List DemuxerBuilder) (data : Sample)
    (max : Nat) (candidate : Option DemuxerBuilder) :
    Nat × Option DemuxerBuilder :=
  match demuxers with
  | [] => (max, candidate)
  | builder :: rest =>
    if builder.probe data > max then
      probeLoop rest data (builder.probe data) (some builder)
    else
      probeLoop rest data max candidate

/-- `probe` from `demux.rs`: run the loop starting from `max = 0`,
`candidate = None`, then return the candidate only when
`max > Score::EXTENSION as u8`. -/
def probe (demuxers : List DemuxerBuilder) (data : Sample) :
    Option DemuxerBuilder :=
  let r := probeLoop demuxers data 0 none
  if r.1 > Score.EXTENSION.toNat then r.2 else none

/-- Error kinds of the toolkit's error crate (external to the reviewed
source), as enumerated in the specification. -/
inductive ErrorKind where
  | NotConfigured
  | NotReady
  | UnsupportedOption
  | InvalidValue
  | MoreDataNeeded
  | InvalidData
  | Eof
deriving DecidableEq

/-- The `Value` tagged union of the external data crate, restricted to the
variants the reviewed code matches on: `Value::U64` and `Value::Formaton`
(the opaque `Rc<Formaton>` pixel-format reference, identified here by an id). -/
inductive Value where
  | U64 (v : Nat)
  | Formaton (f : Nat)
deriving DecidableEq

/-- `Frame` is an externally defined raw media unit; the reviewed encoder code
never inspects it, so it is modelled as an opaque token. -/
structure Frame where
  id : Nat
deriving DecidableEq

/-- `Packet` from the external data crate, restricted to the `data` payload
the reviewed code touches. -/
structure Packet where
  data : List Nat
deriving DecidableEq

/-- `Packet::with_capacity(n)`: an empty payload (capacity is not
observable). -/
def Packet.with_capacity (_n : Nat) : Packet := { data := [] }

/-- The `Encoder` trait of `encoder.rs` as a method table over the concrete
encoder state `S` (the type behind `Box<Encoder>`).  Methods returning a Rust
`Result` are wrapped in the panic-modelling `Option`. -/
structure Encoder (S : Type) where
  get_extradata : S → Option (List Nat)
  send_frame : S → Frame → Option (Except ErrorKind Unit × S)
  receive_packet : S → Option (Except ErrorKind Packet × S)
  validate : S → Option (Except ErrorKind Unit × S)
  «set_option» : S → String → Value → Option (Except ErrorKind Unit × S)

/-- `Descr` metadata record from `encoder.rs`. -/
structure Descr where
  codec : String
  name : String
  desc : String
  mime : String
deriving DecidableEq

/-- The `Descriptor` trait from `encoder.rs` over encoder state `S`:
`create` builds a fresh boxed encoder state, `describe` exposes the static
metadata record. -/
structure Descriptor (S : Type) where
  create : S
  descr : Descr
deriving DecidableEq

/-- `Descriptor::describe(&self) -> &Descr`. -/
def Descriptor.describe {S : Type} (d : Descriptor S) : Descr := d.descr

/-- The `Codecs` registry from `encoder.rs`: a `HashMap` from a static codec
family name to the vector of descriptors registered under it, modelled as a
function into `Option (List _)` (`none` = key absent). -/
structure Codecs (S : Type) where
  list : String → Option (List (Descriptor S))

/-- `Codecs::new()`: an empty map. -/
def Codecs.new {S : Type} : Codecs S := ⟨fun _ => none⟩

/-- `Codecs::append`: `self.list.entry(codec_name).or_insert(Vec::new()).push(desc)`
where `codec_name = desc.describe().codec`. -/
def Codecs.append {S : Type} (c : Codecs S) (desc : Descriptor S) : Codecs S :=
  ⟨fun n =>
    if n = desc.describe.codec then
      some ((c.list desc.describe.codec).getD [] ++ [desc])
    else
      c.list n⟩

/-- `Codecs::by_name`: on a hit returns `Some(descs[0])`, on a miss `None`.
The outer `Option` models the `descs[0]` index: `none` is the panic on an
empty vector, `some r` the Rust return value `r`. -/
def Codecs.by_name {S : Type} (c : Codecs S) (name : String) :
    Option (Option (Descriptor S)) :=
  match c.list name with
  | some descs => descs.head?.map some
  | none => some none

/-- The registry state reached from `Codecs::new()` by a sequence of
`append` calls, in order. -/
def Codecs.ofAppends {S : Type} (ds : List (Descriptor S)) : Codecs S :=
  ds.foldl Codecs.append Codecs.new

/-- Modelled from the spec: "the descriptor/builder that was `append`-ed
first under `f`" — the first element of `ds` whose declared codec family is
`f`.  Used as the comparison point for the registry lookup claims. -/
def firstAppended {S : Type} (ds : List (Descriptor S)) (f : String) :
    Option (Descriptor S) :=
  ds.find? (fun d => d.describe.codec == f)

/-- The `Context` struct from `encoder.rs`: it owns exactly one boxed
encoder (single field `enc`). -/
structure Context (S : Type) where
  enc : S

/-- `Context::by_name`: look the family up in the registry and wrap a fresh
encoder built by the found descriptor; `None` when the family is unknown.
The outer `Option` propagates a panic inside `Codecs::by_name`. -/
def Context.by_name {S : Type} (codecs : Codecs S) (name : String) :
    Option (Option (Context S)) :=
  (Codecs.by_name codecs name).map (fun r => r.map (fun builder => ⟨builder.create⟩))

/-- `Context::set_option`: forwards to `self.enc.set_option(key, val.into())`
(the `Into<Value>` conversion is already applied to `val` here). -/
def Context.set_option {S : Type} (E : Encoder S) (c : Context S)
    (key : String) (val : Value) : Option (Except ErrorKind Unit × Context S) :=
  (E.set_option c.enc key val).map (fun rs => (rs.1, { enc := rs.2 }))

/-- `Context::get_extradata`: forwards to `self.enc.get_extradata()`. -/
def Context.get_extradata {S : Type} (E : Encoder S) (c : Context S) :
    Option (List Nat) :=
  E.get_extradata c.enc

/-- `Context::send_frame`: forwards to `self.enc.send_frame(frame)`. -/
def Context.send_frame {S : Type} (E : Encoder S) (c : Context S)
    (frame : Frame) : Option (Except ErrorKind Unit × Context S) :=
  (E.send_frame c.enc frame).map (fun rs => (rs.1, { enc := rs.2 }))

/-- `Context::receive_packet`: forwards to `self.enc.receive_packet()`. -/
def Context.receive_packet {S : Type} (E : Encoder S) (c : Context S) :
    Option (Except ErrorKind Packet × Context S) :=
  (E.receive_packet c.enc).map (fun rs => (rs.1, { enc := rs.2 }))

/-- The public methods of `impl Context` in `encoder.rs` (lines 27-54), in
source order.  Note that no `validate` method is among them. -/
def Context.methods : List String :=
  ["by_name", "set_option", "get_extradata", "send_frame", "receive_packet"]

/-- The dummy test encoder state `Enc` from the `encoder.rs` test module:
`state: usize` counter plus the three configuration slots. -/
structure Enc where
  state : Nat
  w : Option Nat
  h : Option Nat
  format : Option Nat
deriving DecidableEq

/-- Dummy `Enc::validate`: `Ok(())` when `h`, `w` and `format` are all set,
otherwise `unimplemented!()` (modelled as `none`). -/
def Enc.validate (e : Enc) : Option (Except ErrorKind Unit × Enc) :=
  if e.h.isSome && e.w.isSome && e.format.isSome then
    some (Except.ok (), e)
  else
    none

/-- Dummy `Enc::get_extradata`: `Some(vec![self.state as u8; 1])`. -/
def Enc.get_extradata (e : Enc) : Option (List Nat) :=
  some (List.replicate 1 (e.state % 256))

/-- Dummy `Enc::send_frame`: increments `state` and returns `Ok(())`,
regardless of any configuration or validation. -/
def Enc.send_frame (e : Enc) (_frame : Frame) :
    Option (Except ErrorKind Unit × Enc) :=
  some (Except.ok (), { e with state := e.state + 1 })

/-- Dummy `Enc::receive_packet`: a fresh packet with the single byte
`self.state as u8` pushed, returned as `Ok`. -/
def Enc.receive_packet (e : Enc) : Option (Except ErrorKind Packet × Enc) :=
  let p := Packet.with_capacity 1
  some (Except.ok { p with data := p.data ++ [e.state % 256] }, e)

/-- Dummy `Enc::set_option`: recognises `("w", U64)`, `("h", U64)` and
`("format", Formaton)`; every other pair hits `unimplemented!()`. -/
def Enc.set_option (e : Enc) (key : String) (val : Value) :
    Option (Except ErrorKind Unit × Enc) :=
  match key, val with
  | "w", Value.U64 v => some (Except.ok (), { e with w := some v })
  | "h", Value.U64 v => some (Except.ok (), { e with h := some v })
  | "format", Value.Formaton f => some (Except.ok (), { e with format := some f })
  | _, _ => none

/-- The dummy encoder's `Encoder` method table (`impl Encoder for Enc`). -/
def EncImpl : Encoder Enc :=
  { get_extradata := Enc.get_extradata
  , send_frame := Enc.send_frame
  , receive_packet := Enc.receive_packet
  , validate := Enc.validate
  , «set_option» := Enc.set_option }

/-- `DUMMY_DESCR` from the `encoder.rs` test module: `Des::create` boxes a
fresh `Enc { state: 0, w: None, h: None, format: None }`. -/
def DUMMY_DESCR : Descriptor Enc :=
  { create := { state := 0, w := none, h := none, format := none }
  , descr := { codec := "dummy", name := "dummy", desc := "Dummy encoder"
             , mime := "x-application/dummy" } }

/-- The test demuxer builder of the `demux.rs` test module: scores
`Score::MAX` when the first byte of the sample is 0, otherwise 0. -/
def TestDemuxerBuilder : DemuxerBuilder :=
  { describe := { name := "Test", description := "Test demuxer"
                , extensions := ["test", "t"], mime := ["x-application/test"] }
  , probe := fun data => if data.head? = some 0 then Score.MAX.toNat else 0 }

/-- Auxiliary builder scoring the constant 50 (exactly the weak
extension-only threshold) on every sample. -/
def extensionOnlyBuilder : DemuxerBuilder :=
  { describe := { name := "ExtOnly", description := "constant score 50"
                , extensions := [], mime := [] }
  , probe := fun _ => Score.EXTENSION.toNat }

/-- Auxiliary builder scoring the constant 60 on every sample. -/
def mediumBuilderA : DemuxerBuilder :=
  { describe := { name := "MediumA", description := "constant score 60"
                , extensions := [], mime := [] }
  , probe := fun _ => 60 }

/-- Second auxiliary builder scoring the constant 60 on every sample,
distinguishable from `mediumBuilderA` by its description. -/
def mediumBuilderB : DemuxerBuilder :=
  { describe := { name := "MediumB", description := "constant score 60, too"
                , extensions := [], mime := [] }
  , probe := fun _ => 60 }

/-- Characterisation of the probe loop: either no builder beats the incoming
maximum `m` (and the accumulator pair is returned unchanged), or the list
splits around the first builder `b` attaining the overall maximum: everything
before it scores strictly below `b`, everything after it scores at most `b`,
and the loop returns `b` together with its score. -/
theorem probeLoop_spec (data : Sample) :
    ∀ (l : List DemuxerBuilder) (m : Nat) (c : Option DemuxerBuilder),
      (probeLoop l data m c = (m, c) ∧ ∀ x ∈ l, x.probe data ≤ m)
      ∨ (∃ l₁ b l₂, l = l₁ ++ b :: l₂ ∧ m < b.probe data
          ∧ (∀ x ∈ l₁, x.probe data < b.probe data)
          ∧ (∀ x ∈ l₂, x.probe data ≤ b.probe data)
          ∧ probeLoop l data m c = (b.probe data, some b)) := by
  intro l
  induction l with
  | nil =>
    intro m c
    exact Or.inl ⟨rfl, by simp⟩
  | cons hd tl ih =>
    intro m c
    by_cases h : hd.probe data > m
    · have hstep : probeLoop (hd :: tl) data m c
          = probeLoop tl data (hd.probe data) (some hd) := by
        simp [probeLoop, h]
      rcases ih (hd.probe data) (some hd) with ⟨heq, hall⟩ | ⟨l₁, b, l₂, hsplit, hm, h₁, h₂, heq⟩
      · refine Or.inr ⟨[], hd, tl, rfl, h, by simp, hall, ?_⟩
        rw [hstep, heq]
      · refine Or.inr ⟨hd :: l₁, b, l₂, by rw [hsplit, List.cons_append], lt_trans h hm, ?_, h₂, ?_⟩
        · intro x hx
          rcases List.mem_cons.mp hx with hx | hx
          · rw [hx]; exact hm
          · exact h₁ x hx
        · rw [hstep, heq]
    · have hle : hd.probe data ≤ m := Nat.le_of_not_lt h
      have hstep : probeLoop (hd :: tl) data m c = probeLoop tl data m c := by
        simp [probeLoop, h]
      rcases ih m c with ⟨heq, hall⟩ | ⟨l₁, b, l₂, hsplit, hm, h₁, h₂, heq⟩
      · refine Or.inl ⟨by rw [hstep, heq], ?_⟩
        intro x hx
        rcases List.mem_cons.mp hx with hx | hx
        · rw [hx]; exact hle
        · exact hall x hx
      · refine Or.inr ⟨hd :: l₁, b, l₂, by rw [hsplit, List.cons_append], hm, ?_, h₂, ?_⟩
        · intro x hx
          rcases List.mem_cons.mp hx with hx | hx
          · rw [hx]; exact lt_of_le_of_lt hle hm
          · exact h₁ x hx
        · rw [hstep, heq]

/-- C1: `probe` returns a builder only when that builder's score on the
sample is strictly greater than 50 (`Score::EXTENSION`); and whenever every
builder of the list scores at most 50 (in particular when the highest score
is exactly 50, or the list is a single such builder), `probe` returns no
match. -/
theorem probe_threshold (l : List DemuxerBuilder) (data : Sample) :
    (∀ b, probe l data = some b → Score.EXTENSION.toNat < b.probe data)
    ∧ ((∀ b ∈ l, b.probe data ≤ Score.EXTENSION.toNat) → probe l data = none) := by
  rcases probeLoop_spec data l 0 none with ⟨heq, _⟩ | ⟨l₁, b', l₂, hsplit, _, _, _, heq⟩
  · have hp : probe l data = none := by
      simp [probe, heq]
    exact ⟨fun b hb => absurd (hp ▸ hb) (by simp), fun _ => hp⟩
  · have hp : probe l data
        = if Score.EXTENSION.toNat < b'.probe data then some b' else none := by
      simp [probe, heq]
    constructor
    · intro b hb
      rw [hp] at hb
      by_cases hgt : Score.EXTENSION.toNat < b'.probe data
      · rw [if_pos hgt] at hb
        injection hb with hb
        exact hb ▸ hgt
      · rw [if_neg hgt] at hb
        cases hb
    · intro hall
      have hb' : b'.probe data ≤ Score.EXTENSION.toNat :=
        hall b' (by rw [hsplit]; exact List.mem_append_right _ (List.mem_cons_self _ _))
      rw [hp, if_neg (Nat.not_lt.mpr hb')]

/-- Witness for C1: the single builder scoring exactly 50 (the weak
threshold) is rejected. -/
theorem probe_threshold_witness :
    probe [extensionOnlyBuilder] [1] = none :=
  (probe_threshold [extensionOnlyBuilder] [1]).2 (by decide)

/-- C3: `probe` selects the earliest builder attaining the maximum score —
whenever `probe` returns a builder `b`, the list splits as `l₁ ++ b :: l₂`
with every earlier builder scoring strictly below `b` and every later one at
most `b`; in particular, for two builders with the same score above 50, the
earlier one is selected. -/
theorem probe_earliest_max (l : List DemuxerBuilder) (data : Sample) :
    (∀ b, probe l data = some b →
      ∃ l₁ l₂, l = l₁ ++ b :: l₂
        ∧ (∀ x ∈ l₁, x.probe data < b.probe data)
        ∧ (∀ x ∈ l₂, x.probe data ≤ b.probe data))
    ∧ (∀ b₁ b₂, b₁.probe data = b₂.probe data →
        Score.EXTENSION.toNat < b₁.probe data →
        probe [b₁, b₂] data = some b₁) := by
  constructor
  · intro b hb
    rcases probeLoop_spec data l 0 none with ⟨heq, _⟩ | ⟨l₁, b', l₂, hsplit, _, h₁, h₂, heq⟩
    · have hp : probe l data = none := by
        simp [probe, heq]
      exact absurd (hp ▸ hb) (by simp)
    · have hp : probe l data
          = if Score.EXTENSION.toNat < b'.probe data then some b' else none := by
        simp [probe, heq]
      rw [hp] at hb
      by_cases hgt : Score.EXTENSION.toNat < b'.probe data
      · rw [if_pos hgt] at hb
        injection hb with hb
        subst hb
        exact ⟨l₁, l₂, hsplit, h₁, h₂⟩
      · rw [if_neg hgt] at hb
        cases hb
  · intro b₁ b₂ heq h50
    have h0 : 0 < b₁.probe data := lt_of_le_of_lt (Nat.zero_le _) h50
    have hno : ¬ (b₂.probe data > b₁.probe data) := by
      rw [← heq]
      exact lt_irrefl _
    simp [probe, probeLoop, h0, hno, h50]

/-- Witness for C3: two builders both scoring 60 (> 50) on the empty sample;
the earlier one is selected. -/
theorem probe_earliest_max_witness :
    probe [mediumBuilderA, mediumBuilderB] [] = some mediumBuilderA :=
  (probe_earliest_max [mediumBuilderA, mediumBuilderB] []).2
    mediumBuilderA mediumBuilderB rfl (by decide)

/-- C8: `probe` is deterministic on non-empty builder lists: with the same
builder list and the same sample, two runs yield the same result.  (In this
embedding each builder's `probe` is a pure function of the sample, which is
exactly the claim's assumption, so the two runs are one value.) -/
theorem probe_deterministic (l : List DemuxerBuilder) (data : Sample)
    (h : l ≠ []) : probe l data = probe l data := rfl

/-- Witness for C8 on the test demuxer builder and a one-byte sample. -/
theorem probe_deterministic_witness :
    probe [TestDemuxerBuilder] [0] = probe [TestDemuxerBuilder] [0] :=
  probe_deterministic [TestDemuxerBuilder] [0] (List.cons_ne_nil _ _)

/-- C10: on an empty builder list the loop leaves the running maximum at 0
and the candidate at `None`, and since 0 does not exceed the weak threshold,
`probe` returns no match, for every sample. -/
theorem probe_empty_none (data : Sample) :
    probeLoop [] data 0 none = (0, none) ∧ probe [] data = none :=
  ⟨rfl, rfl⟩

/-- Finding the first element satisfying a predicate is reading the head of
the filtered list. -/
theorem find?_eq_head?_filter {α : Type} (p : α → Bool) :
    ∀ l : List α, l.find? p = (l.filter p).head? := by
  intro l
  induction l with
  | nil => rfl
  | cons a l ih =>
    by_cases h : p a
    · rw [List.find?_cons_of_pos _ h, List.filter_cons_of_pos h, List.head?_cons]
    · rw [List.find?_cons_of_neg _ h, List.filter_cons_of_neg h, ih]

/-- Contents of the registry table after a sequence of `append` calls on an
arbitrary starting registry `c`: the entry of a family `f` is left alone when
no appended descriptor declares family `f`, and otherwise holds the old
contents extended by exactly the appended descriptors declaring `f`, in
order. -/
theorem ofAppends_list {S : Type} (f : String) :
    ∀ (ds : List (Descriptor S)) (c : Codecs S),
      (ds.filter (fun d => d.describe.codec == f) = [] →
        (ds.foldl Codecs.append c).list f = c.list f)
      ∧ (ds.filter (fun d => d.describe.codec == f) ≠ [] →
        (ds.foldl Codecs.append c).list f
          = some ((c.list f).getD [] ++ ds.filter (fun d => d.describe.codec == f))) := by
  intro ds
  induction ds with
  | nil =>
    intro c
    exact ⟨fun _ => rfl, fun h => absurd rfl h⟩
  | cons d rest ih =>
    intro c
    have ihc := ih (Codecs.append c d)
    by_cases h : d.describe.codec = f
    · have happ : (Codecs.append c d).list f = some ((c.list f).getD [] ++ [d]) := by
        simp [Codecs.append, h]
      have hfc : (d :: rest).filter (fun d => d.describe.codec == f)
          = d :: rest.filter (fun d => d.describe.codec == f) := by
        simp [List.filter_cons, h]
      constructor
      · intro hnil
        rw [hfc] at hnil
        cases hnil
      · intro _
        rw [List.foldl_cons, hfc]
        by_cases hrest : rest.filter (fun d => d.describe.codec == f) = []
        · rw [(ihc).1 hrest, happ, hrest]
        · rw [(ihc).2 hrest, happ]
          simp [List.append_assoc]
    · have happ : (Codecs.append c d).list f = c.list f := by
        have h' : ¬ (f = d.describe.codec) := fun hf => h hf.symm
        simp [Codecs.append, h']
      have hfc : (d :: rest).filter (fun d => d.describe.codec == f)
          = rest.filter (fun d => d.describe.codec == f) := by
        simp [List.filter_cons, h]
      constructor
      · intro hnil
        rw [hfc] at hnil
        rw [List.foldl_cons, (ihc).1 hnil, happ]
      · intro hne
        rw [hfc] at hne
        rw [List.foldl_cons, (ihc).2 hne, happ, hfc]

/-- `Codecs::by_name` on a registry built by appends never panics and
returns exactly the first descriptor appended under the family. -/
theorem by_name_ofAppends {S : Type} (ds : List (Descriptor S)) (f : String) :
    Codecs.by_name (Codecs.ofAppends ds) f = some (firstAppended ds f) := by
  rw [firstAppended, find?_eq_head?_filter]
  by_cases hfil : ds.filter (fun d => d.describe.codec == f) = []
  · have hnone : (Codecs.ofAppends ds).list f = none :=
      (ofAppends_list f ds Codecs.new).1 hfil
    rw [hfil]
    unfold Codecs.by_name
    rw [hnone]
    rfl
  · have hsome : (Codecs.ofAppends ds).list f
        = some (ds.filter (fun d => d.describe.codec == f)) :=
      (ofAppends_list f ds Codecs.new).2 hfil
    unfold Codecs.by_name
    rw [hsome]
    obtain ⟨a, as, hcons⟩ := List.exists_cons_of_ne_nil hfil
    rw [hcons]
    rfl

/-- C2: on every registry reachable by a sequence of `append` calls,
`by_name` returns (without panicking) the descriptor that was appended first
under the family name — later descriptors sharing the name never displace it
— and returns `None` when no descriptor was ever appended under that name
(`firstAppended` is `List.find?` over the appended sequence). -/
theorem by_name_first_appended {S : Type} (ds : List (Descriptor S)) (f : String) :
    Codecs.by_name (Codecs.ofAppends ds) f = some (firstAppended ds f) :=
  by_name_ofAppends ds f

/-- C9: after every sequence of `append` calls starting from `Codecs::new`,
every family name present in the table maps to a non-empty descriptor
vector, and consequently the `descs[0]` access inside `by_name` never
panics. -/
theorem registry_nonempty {S : Type} (ds : List (Descriptor S)) (f : String) :
    (∀ descs, (Codecs.ofAppends ds).list f = some descs → descs ≠ [])
    ∧ Codecs.by_name (Codecs.ofAppends ds) f ≠ none := by
  constructor
  · intro descs hd hnil
    subst hnil
    by_cases hfil : ds.filter (fun d => d.describe.codec == f) = []
    · have hnone : (Codecs.ofAppends ds).list f = none :=
        (ofAppends_list f ds Codecs.new).1 hfil
      rw [hnone] at hd
      cases hd
    · have hsome : (Codecs.ofAppends ds).list f
          = some (ds.filter (fun d => d.describe.codec == f)) :=
        (ofAppends_list f ds Codecs.new).2 hfil
      rw [hsome] at hd
      injection hd with hd
      exact hfil hd
  · rw [by_name_ofAppends]
    simp

/-- Witness for C9: the registry holding only the dummy descriptor maps
"dummy" to the non-empty vector `[DUMMY_DESCR]`. -/
theorem registry_nonempty_witness :
    ([DUMMY_DESCR] : List (Descriptor Enc)) ≠ [] :=
  (registry_nonempty [DUMMY_DESCR] "dummy").1 [DUMMY_DESCR] (by decide)

/-- C6: on every registry reachable by appends, `Context::by_name` returns
(without panicking) a context wrapping a fresh encoder created by the first
builder appended under the family when the family is registered, and `None`
when the family is unknown. -/
theorem context_by_name_first_builder {S : Type} (ds : List (Descriptor S)) (f : String) :
    Context.by_name (Codecs.ofAppends ds) f
      = some ((firstAppended ds f).map (fun builder => ⟨builder.create⟩)) := by
  rw [Context.by_name, by_name_ofAppends]
  rfl

/-- C5 counterexample: the claim lists `validate` among the methods the
Context forwards, but `impl Context` in `encoder.rs` exposes no `validate`
method at all, so external code cannot validate an encoder through the
Context. -/
theorem context_validate_missing : "validate" ∉ Context.methods := by
  decide

/-- C5 (amended): the Context owns exactly one encoder (its single field)
and forwards `set_option`, `send_frame`, `receive_packet` and
`get_extradata` verbatim to it, with no additional effect; it exposes no
`validate` method. -/
theorem context_forwarding {S : Type} (E : Encoder S) (c : Context S)
    (key : String) (val : Value) (frame : Frame) :
    c = ⟨c.enc⟩
    ∧ Context.set_option E c key val
        = (E.set_option c.enc key val).map (fun rs => (rs.1, { enc := rs.2 }))
    ∧ Context.send_frame E c frame
        = (E.send_frame c.enc frame).map (fun rs => (rs.1, { enc := rs.2 }))
    ∧ Context.receive_packet E c
        = (E.receive_packet c.enc).map (fun rs => (rs.1, { enc := rs.2 }))
    ∧ Context.get_extradata E c = E.get_extradata c.enc
    ∧ "validate" ∉ Context.methods :=
  ⟨rfl, rfl, rfl, rfl, rfl, by decide⟩

/-- C4 counterexample: on a fresh dummy encoder that was never validated
(and cannot even pass validation, all options being unset), `send_frame`
returns `Ok(())` and bumps the counter, and `receive_packet` returns an
`Ok` packet — neither fails with `NotReady`. -/
theorem send_frame_unvalidated_ok :
    Enc.send_frame { state := 0, w := none, h := none, format := none } { id := 0 }
        = some (Except.ok (), { state := 1, w := none, h := none, format := none })
    ∧ Enc.receive_packet { state := 0, w := none, h := none, format := none }
        = some (Except.ok { data := [0] },
            { state := 0, w := none, h := none, format := none }) :=
  ⟨rfl, rfl⟩

/-- C4 (amended): the code has no `NotReady` gating at all — on the dummy
encoder (the repository's only encoder), and through the Context, the
streaming operations silently succeed in every state, validated or not:
`send_frame` increments the counter and returns `Ok(())`, `receive_packet`
returns an `Ok` packet carrying the current counter byte. -/
theorem streaming_no_validate_gate (e : Enc) (frame : Frame) :
    Enc.send_frame e frame = some (Except.ok (), { e with state := e.state + 1 })
    ∧ Enc.receive_packet e = some (Except.ok { data := [e.state % 256] }, e)
    ∧ Context.send_frame EncImpl ⟨e⟩ frame
        = some (Except.ok (), ⟨{ e with state := e.state + 1 }⟩)
    ∧ Context.receive_packet EncImpl ⟨e⟩
        = some (Except.ok { data := [e.state % 256] }, ⟨e⟩) :=
  ⟨rfl, rfl, rfl, rfl⟩

/-- C7: the dummy-encoder round trip — registering the dummy descriptor
under family "dummy" and looking it up yields a fresh encoder with
counter 0; setting `w=640`, `h=480` and a pixel-format reference makes
`validate` succeed; one `send_frame` bumps the counter from 0 to 1; then
`receive_packet` returns a packet whose payload is exactly the single byte
1, and `get_extradata` returns exactly the single byte 1. -/
theorem dummy_roundtrip :
    Codecs.by_name (Codecs.ofAppends [DUMMY_DESCR]) "dummy" = some (some DUMMY_DESCR)
    ∧ DUMMY_DESCR.create = { state := 0, w := none, h := none, format := none }
    ∧ Enc.set_option { state := 0, w := none, h := none, format := none }
        "w" (Value.U64 640)
        = some (Except.ok (), { state := 0, w := some 640, h := none, format := none })
    ∧ Enc.set_option { state := 0, w := some 640, h := none, format := none }
        "h" (Value.U64 480)
        = some (Except.ok (), { state := 0, w := some 640, h := some 480, format := none })
    ∧ Enc.set_option { state := 0, w := some 640, h := some 480, format := none }
        "format" (Value.Formaton 0)
        = some (Except.ok (), { state := 0, w := some 640, h := some 480, format := some 0 })
    ∧ Enc.validate { state := 0, w := some 640, h := some 480, format := some 0 }
        = some (Except.ok (), { state := 0, w := some 640, h := some 480, format := some 0 })
    ∧ Enc.send_frame { state := 0, w := some 640, h := some 480, format := some 0 } { id := 0 }
        = some (Except.ok (), { state := 1, w := some 640, h := some 480, format := some 0 })
    ∧ Enc.receive_packet { state := 1, w := some 640, h := some 480, format := some 0 }
        = some (Except.ok { data := [1] },
            { state := 1, w := some 640, h := some 480, format := some 0 })
    ∧ Enc.get_extradata { state := 1, w := some 640, h := some 480, format := some 0 }
        = some [1] :=
  ⟨rfl, rfl, rfl, rfl, rfl, rfl, rfl, rfl, rfl⟩

end RustAV
